import Mathlib

/-!
Verification of the handwritten-digit-recognition notebook
(`CSCA5622_final_HaoYu_v1.ipynb`) against its natural-language
specification.

The notebook's own code is a thin pipeline over library calls:

* Step 4 (Preprocessor): `X_scaled = MinMaxScaler().fit_transform(X)` on the
  FULL dataset, then
  `train_test_split(X_scaled, y, test_size=0.2, random_state=42, stratify=y)`.
* Step 5 (Trainer/Evaluator): a dict of three configured models
  (`SVC(kernel='rbf', C=10, gamma='scale', random_state=42)`,
  `KNeighborsClassifier(n_neighbors=5)`,
  `RandomForestClassifier(n_estimators=100, random_state=42)`) fitted and
  scored in a plain `for` loop with no exception handling.
* Step 6: `confusion_matrix(y_test, y_pred_svm)`.
* Step 8: `GridSearchCV(SVC(), param_grid, cv=3, ...)` over
  `param_grid = {'C': [0.1, 1, 10], 'gamma': ['scale','auto',0.01,0.001],
  'kernel': ['rbf','poly']}`.

The library operations themselves (min-max scaling, stratified splitting,
grid-search selection, confusion-matrix counting) are not part of the
repository's sources; where a claim depends on them they are modelled from
the specification's description of them, and each such definition carries a
doc comment saying so.  The notebook-level composition (what is fitted on
what, in which order, with which literal configuration) is translated
directly from the notebook cells.
-/

namespace DigitRecognition

/-- A sample: a feature vector (the 64 pixel intensities, kept as an
arbitrary-length list of rationals) together with an integer class label. -/
structure Sample where
  features : List ℚ
  label : ℕ
deriving DecidableEq

/-! ## Step 8: the hyperparameter grid (`param_grid` literal in the source) -/

/-- The SVM kernel-width mode: `'scale'`, `'auto'`, or an explicit number.
Mirrors the `gamma` entries of `param_grid`. -/
inductive Gamma where
  | scale : Gamma
  | auto : Gamma
  | num : ℚ → Gamma
deriving DecidableEq

/-- The SVM kernel shape: `'rbf'` or `'poly'`.
Mirrors the `kernel` entries of `param_grid`. -/
inductive Kernel where
  | rbf : Kernel
  | poly : Kernel
deriving DecidableEq

/-- One SVM hyperparameter combination. -/
structure SVCParams where
  C : ℚ
  gamma : Gamma
  kernel : Kernel
deriving DecidableEq

/-- `'C': [0.1, 1, 10]` from the source's `param_grid`. -/
def cValues : List ℚ := [1/10, 1, 10]

/-- `'gamma': ['scale', 'auto', 0.01, 0.001]` from the source's `param_grid`. -/
def gammaValues : List Gamma := [Gamma.scale, Gamma.auto, Gamma.num (1/100), Gamma.num (1/1000)]

/-- `'kernel': ['rbf', 'poly']` from the source's `param_grid`. -/
def kernelValues : List Kernel := [Kernel.rbf, Kernel.poly]

/-- Modelled from the spec: the enumeration of the grid dictionary that the
library's grid search performs (missing from the sources): the Cartesian
product of the three value lists, keys in sorted order (`C`, `gamma`,
`kernel`) with the last key varying fastest. -/
def paramGrid : List SVCParams :=
  cValues.flatMap fun c =>
    gammaValues.flatMap fun g =>
      kernelValues.map fun k => ⟨c, g, k⟩

/-- `cv=3` in the source's `GridSearchCV` call. -/
def cvFolds : ℕ := 3

/-- One fit/score operation per (combination, fold) pair of the
cross-validated search. -/
def numFitScoreOps : ℕ := paramGrid.length * cvFolds

/-! ## Step 4: the Preprocessor -/

/-- The minimum of a list of rationals (`0` on the empty list). -/
def listMin : List ℚ → ℚ
  | [] => 0
  | x :: xs => xs.foldl min x

/-- The maximum of a list of rationals (`0` on the empty list). -/
def listMax : List ℚ → ℚ
  | [] => 0
  | x :: xs => xs.foldl max x

/-- The values of column `c` across the feature rows (an out-of-range read
gives `0`; the dataset invariant gives every row the same length). -/
def colVals (rows : List (List ℚ)) (c : ℕ) : List ℚ :=
  rows.map fun r => r.getD c 0

/-- Modelled from the spec: the per-column Scaling Parameters `(min, max)`
that the library scaler computes from the rows it is fitted on (the scaler's
own code is not part of the repository's sources). -/
def fitParams (rows : List (List ℚ)) (c : ℕ) : ℚ × ℚ :=
  (listMin (colVals rows c), listMax (colVals rows c))

/-- Modelled from the spec: one min-max scaled value
`(v - min) / (max - min)`, with the spec's guard that a zero-range column
scales to `0`. -/
def scaleVal (mn mx v : ℚ) : ℚ :=
  if mx = mn then 0 else (v - mn) / (mx - mn)

/-- Scale one feature row, column by column, with parameters fitted on
`fitRows`. -/
def scaleRow (fitRows : List (List ℚ)) (r : List ℚ) : List ℚ :=
  (List.range r.length).map fun c =>
    scaleVal (fitParams fitRows c).1 (fitParams fitRows c).2 (r.getD c 0)

/-- The feature rows of a dataset. -/
def featureRows (xs : List Sample) : List (List ℚ) :=
  xs.map Sample.features

/-- `X_scaled = scaler.fit_transform(X)` from Step 4 of the notebook: the
scaler is fitted on the full dataset `X` and applied to the full dataset. -/
def scaledDataset (xs : List Sample) : List Sample :=
  xs.map fun s => ⟨scaleRow (featureRows xs) s.features, s.label⟩

/-- The Scaling Parameters Step 4 actually uses for column `c`: the ones
fitted on the data passed to `fit_transform`, which in the source is the
whole dataset `X` (not just the training-designated rows). -/
def scalingParamsUsed (xs : List Sample) (c : ℕ) : ℚ × ℚ :=
  fitParams (featureRows xs) c

/-- Modelled from the spec: the test-subset size for a class of `n` samples
under `test_size=0.2`, i.e. 20% of the class. -/
def testQuota (n : ℕ) : ℕ := n / 5

/-- Modelled from the spec: the deterministic stratified 80/20 split the
library's `train_test_split(..., test_size=0.2, stratify=y)` performs
(its code is not part of the repository's sources).  For each label in
`labels`, 20% of that label's samples go to the Test part (first component)
and the rest to the Train part (second component); samples whose label is
not listed are kept in Train. -/
def stratSplit {α : Type} (labelOf : α → ℕ) (labels : List ℕ) (xs : List α) :
    List α × List α :=
  match labels with
  | [] => ([], xs)
  | L :: rest =>
    let g := xs.filter fun s => labelOf s == L
    let others := xs.filter fun s => !(labelOf s == L)
    let p := stratSplit labelOf rest others
    (g.take (testQuota g.length) ++ p.1, g.drop (testQuota g.length) ++ p.2)

/-- The ten digit labels 0..9. -/
def digitLabels : List ℕ := List.range 10

/-- Step 4 end to end, translated from the notebook cell: scale the whole
dataset, then stratified-split the scaled samples into (Test, Train). -/
def preprocess (xs : List Sample) : List Sample × List Sample :=
  stratSplit Sample.label digitLabels (scaledDataset xs)

/-- The Scaling Parameters as the claim reads them: fitted only on the
training-designated rows (the Train part of the split).  Named after the
spec's wording, for comparison with `scalingParamsUsed`. -/
def scalingParamsClaim (xs : List Sample) (c : ℕ) : ℚ × ℚ :=
  fitParams (featureRows (stratSplit Sample.label digitLabels xs).2) c

/-- The number of samples with label `L`, for any label-carrying element
type. -/
def countLabelBy {α : Type} (labelOf : α → ℕ) (l : List α) (L : ℕ) : ℕ :=
  l.countP fun a => labelOf a == L

/-- The number of samples with label `L` in a dataset. -/
def countLabel (l : List Sample) (L : ℕ) : ℕ :=
  countLabelBy Sample.label l L

/-! ## Step 5: the Model Trainer/Evaluator -/

/-- The three model variants of the Step-5 `models` dict. -/
inductive ModelName where
  | svm : ModelName
  | knn : ModelName
  | randomForest : ModelName
deriving DecidableEq

/-- The per-variant configuration facts the determinism claims depend on:
whether fitting the variant consumes a random source at all, and the
`random_state` argument passed in the source (`none` when the constructor
call passes no seed). -/
structure ModelConfig where
  name : ModelName
  usesRandomness : Bool
  randomState : Option ℕ
deriving DecidableEq

/-- The Step-5 `models` dict, translated from the notebook:
`SVC(kernel='rbf', C=10, gamma='scale', random_state=42)`,
`KNeighborsClassifier(n_neighbors=5)` (a deterministic variant that
consumes no random source), and
`RandomForestClassifier(n_estimators=100, random_state=42)`. -/
def models : List ModelConfig :=
  [⟨ModelName.svm, true, some 42⟩,
   ⟨ModelName.knn, false, none⟩,
   ⟨ModelName.randomForest, true, some 42⟩]

/-- Modelled from the spec: the seed a stochastic component actually
consumes — the fixed `random_state` when the configuration supplies one,
the interpreter's ambient global seed otherwise (the library's RNG plumbing
is not part of the repository's sources). -/
def effectiveSeed (cfg : ModelConfig) (globalSeed : ℕ) : ℕ :=
  match cfg.randomState with
  | some s => s
  | none => globalSeed

/-- What one Step-5/Step-6 evaluation records for a variant: the accuracy
scalar and the confusion-matrix entries. -/
structure EvalResult where
  accuracy : ℚ
  confusion : ℕ → ℕ → ℕ

/-- Modelled from the spec: one full train-and-evaluate pass of Step 5 over
the `models` dict.  The library internals of fitting and scoring are opaque,
abstracted as the function `fitEval` of the variant's configuration and of
the seed its stochastic components consume (`0` for a variant that consumes
no randomness); the ambient global seed stands for every source of
nondeterminism outside the fixed configurations. -/
def runModels (fitEval : ModelConfig → ℕ → EvalResult) (globalSeed : ℕ) :
    List (ModelName × EvalResult) :=
  models.map fun cfg =>
    (cfg.name, fitEval cfg (if cfg.usesRandomness then effectiveSeed cfg globalSeed else 0))

/-- A fit failure of one model variant (spec §7's FitError). -/
inductive FitError where
  | noConvergence : FitError
  | singularInput : FitError
deriving DecidableEq

/-- Step 5's training loop, translated from the notebook's
`for name, model in models.items(): model.fit(...); ...` — the loop body has
no exception handler, so a raised fit error propagates out of the loop and
aborts the remaining iterations.  The outcome of one library fit is
abstracted as `fit`. -/
def trainLoop {α : Type} (fit : ModelName → Except FitError α) :
    List ModelConfig → Except FitError (List (ModelName × α))
  | [] => Except.ok []
  | cfg :: rest =>
    match fit cfg.name with
    | Except.error e => Except.error e
    | Except.ok a =>
      match trainLoop fit rest with
      | Except.error e => Except.error e
      | Except.ok l => Except.ok ((cfg.name, a) :: l)

/-! ## Step 6: the confusion matrix -/

/-- Modelled from the spec: entry `(i, j)` of the confusion matrix counts
the (true label, predicted label) pairs with true label `i` and predicted
label `j` (the library's `confusion_matrix` is not part of the repository's
sources). -/
def confusionMatrix (pairs : List (ℕ × ℕ)) (i j : ℕ) : ℕ :=
  pairs.countP fun p => p.1 == i && p.2 == j

/-- The (true label, predicted label) pairs of a test pass: the test
samples' labels against an abstract predictor applied to their features. -/
def predPairs (predict : List ℚ → ℕ) (test : List Sample) : List (ℕ × ℕ) :=
  test.map fun s => (s.label, predict s.features)

/-! ## Step 8: grid-search selection -/

/-- Modelled from the spec: the running best of the search — the candidate
replaces the incumbent only when its score is strictly greater, so the first
combination attaining the highest score wins. -/
def bestAux (score : SVCParams → ℚ) (b : SVCParams) : List SVCParams → SVCParams
  | [] => b
  | p :: ps => bestAux score (if score b < score p then p else b) ps

/-- Modelled from the spec: pick, among the enumerated combinations, the
first one attaining the highest score (`none` only on an empty grid). -/
def argmaxFirst (score : SVCParams → ℚ) : List SVCParams → Option SVCParams
  | [] => none
  | p :: ps => some (bestAux score p ps)

/-- The mean of the three fold scores of the `cv=3` cross-validation, the
per-fold scores being abstract. -/
def meanCvScore (foldScore : SVCParams → Fin 3 → ℚ) (p : SVCParams) : ℚ :=
  (foldScore p 0 + foldScore p 1 + foldScore p 2) / 3

/-- Step 8's reported winner: the first highest-mean-score combination of
the enumerated grid. -/
def gridSearchBest (score : SVCParams → ℚ) : Option SVCParams :=
  argmaxFirst score paramGrid

/-- A full SVC configuration: the three searched hyperparameters plus the
`random_state` argument. -/
structure SVCConfig where
  C : ℚ
  gamma : Gamma
  kernel : Kernel
  randomState : Option ℕ
deriving DecidableEq

/-- `SVC()` with the library defaults, as constructed in the Step-8 call
`GridSearchCV(SVC(), ...)`: `C=1.0`, `kernel='rbf'`, `gamma='scale'`,
`random_state=None`. -/
def defaultSVC : SVCConfig := ⟨1, Gamma.scale, Kernel.rbf, none⟩

/-- The Step-5 SVM configuration
`SVC(kernel='rbf', C=10, gamma='scale', random_state=42)`. -/
def step5SVC : SVCConfig := ⟨10, Gamma.scale, Kernel.rbf, some 42⟩

/-- Modelled from the spec: the estimator the grid search fits for one
combination — a fresh clone of the base estimator with the combination's
parameters set. -/
def gridEstimator (base : SVCConfig) (p : SVCParams) : SVCConfig :=
  { base with C := p.C, gamma := p.gamma, kernel := p.kernel }

/-- The estimators the Step-8 search fits: one fresh clone of the
default-configured `SVC()` per grid combination. -/
def gridEstimators : List SVCConfig :=
  paramGrid.map (gridEstimator defaultSVC)

/-- The notebook's session state the frame claim is about: the Step-5
fitted models (their fitted payload abstract), the Step-5 recorded accuracy
results, and the Step-8 grid-search outcome. -/
structure NotebookState (μ : Type) where
  fittedModels : List (ModelName × μ)
  results : List (ModelName × ℚ)
  bestFound : Option SVCParams

/-- Step 8 as the notebook runs it: run the grid search (on a fresh default
`SVC()` base estimator) and record its outcome; the `models` and `results`
dicts of Step 5 are not assigned anywhere in the cell. -/
def step8 {μ : Type} (score : SVCParams → ℚ) (st : NotebookState μ) : NotebookState μ :=
  { st with bestFound := gridSearchBest score }

/-! ## Missing values (Step 3's check and Step 4 on incomplete data) -/

/-- A sample whose feature entries may be missing (`none` plays NaN). -/
structure RawSample where
  features : List (Option ℚ)
  label : ℕ
deriving DecidableEq

/-- The error kinds of spec §7(a). -/
inductive DataError where
  | missingValue : DataError
  | shapeMismatch : DataError
deriving DecidableEq

/-- The present (non-missing) values of column `c` across incomplete
feature rows. -/
def rawColVals (rows : List (List (Option ℚ))) (c : ℕ) : List ℚ :=
  rows.filterMap fun r => r.getD c none

/-- Scaling an incomplete row: each present value is min-max scaled with
parameters fitted on the column's present values, and each missing entry
stays missing.  The scaler's documented behaviour — missing values are
disregarded when fitting and maintained by the transform, with no error
raised — stands in for its code, which is not part of the repository's
sources; the notebook itself adds no missing-value handling (Step 3 only
prints the missing-value count). -/
def scaleRawRow (fitRows : List (List (Option ℚ))) (r : List (Option ℚ)) :
    List (Option ℚ) :=
  (List.range r.length).map fun c =>
    (r.getD c none).map
      (scaleVal (listMin (rawColVals fitRows c)) (listMax (rawColVals fitRows c)))

/-- Step 4 on possibly-incomplete data: scale the whole dataset, then
stratified-split, exactly as `preprocess` does. -/
def preprocessRaw (xs : List RawSample) : List RawSample × List RawSample :=
  stratSplit RawSample.label digitLabels
    (xs.map fun s => ⟨scaleRawRow (xs.map RawSample.features) s.features, s.label⟩)

/-- Step 4 with its (absent) input validation made explicit: the notebook
performs no missing-value or shape check before scaling and splitting, so
the result is always produced and no input is ever rejected with a
`DataError`. -/
def preprocessChecked (xs : List RawSample) :
    Except DataError (List RawSample × List RawSample) :=
  Except.ok (preprocessRaw xs)

/-- The number of missing entries of an incomplete feature row. -/
def numMissing (r : List (Option ℚ)) : ℕ :=
  r.countP fun v => v.isNone

/-! ## Concrete inputs used by counterexamples and witnesses -/

/-- Five one-feature samples of label 0.  The split sends the first sample
(feature value 100) to Test, the remaining four (maximum feature value 1)
to Train, so the full-dataset maximum 100 comes from a test-designated row. -/
def exLeak : List Sample :=
  [⟨[100], 0⟩, ⟨[0], 0⟩, ⟨[0], 0⟩, ⟨[0], 0⟩, ⟨[1], 0⟩]

/-- Ten samples, five of label 0 and five of label 1, whose single feature
is constantly 7 (a zero-range column, so scaling takes the guard branch). -/
def exStrat : List Sample :=
  [⟨[7], 0⟩, ⟨[7], 0⟩, ⟨[7], 0⟩, ⟨[7], 0⟩, ⟨[7], 0⟩,
   ⟨[7], 1⟩, ⟨[7], 1⟩, ⟨[7], 1⟩, ⟨[7], 1⟩, ⟨[7], 1⟩]

/-- Two samples of label 0 whose single feature is constantly 7. -/
def exConst : List Sample := [⟨[7], 0⟩, ⟨[7], 0⟩]

/-- A fit outcome where the KNN variant fails with a `FitError` and the
other two variants fit fine. -/
def exFit : ModelName → Except FitError Unit
  | ModelName.knn => Except.error FitError.singularInput
  | _ => Except.ok ()

/-- A two-sample incomplete dataset: the second sample is missing its first
feature (the present values of each column are constant, so scaling takes
the zero-range guard branch). -/
def exMissing : List RawSample :=
  [⟨[some 4, some 2], 0⟩, ⟨[none, some 2], 0⟩]

/-- C1, as stated: the enumerated hyperparameter grid is claimed to contain
exactly 12 combinations.  This is false of the source: `param_grid` has
3 regularization strengths x 4 kernel-width modes x 2 kernel shapes = 24
combinations, so the claim fails at the grid itself. -/
theorem C1_counterexample : ¬ (paramGrid.length = 12 ∧ numFitScoreOps = 12 * 3) := by
  decide

/-- C1 (amended): the hyperparameter grid enumerated by the search —
regularization strength over \x7b0.1, 1, 10\x7d, kernel-width mode over
\x7b"scale", "auto", 0.01, 0.001\x7d, kernel shape over \x7b"rbf", "poly"\x7d —
contains exactly 3 x 4 x 2 = 24 parameter combinations, so the k=3-fold
search performs exactly 24 x 3 = 72 independent fit/score operations. -/
theorem C1_grid_size :
    paramGrid.length = cValues.length * gammaValues.length * kernelValues.length ∧
    paramGrid.length = 24 ∧ numFitScoreOps = 24 * cvFolds ∧ numFitScoreOps = 72 := by
  decide

/-! ## Helper lemmas about folds, columns and the split -/

theorem foldl_min_le (l : List ℚ) : ∀ a : ℚ, l.foldl min a ≤ a ∧ ∀ v ∈ l, l.foldl min a ≤ v := by
  induction l with
  | nil => intro a; exact ⟨le_refl a, by simp⟩
  | cons x xs ih =>
    intro a
    simp only [List.foldl_cons]
    refine ⟨le_trans (ih (min a x)).1 (min_le_left a x), ?_⟩
    intro v hv
    rcases List.mem_cons.mp hv with h | h
    · subst h; exact le_trans (ih (min a v)).1 (min_le_right a v)
    · exact (ih (min a x)).2 v h

theorem le_foldl_max (l : List ℚ) : ∀ a : ℚ, a ≤ l.foldl max a ∧ ∀ v ∈ l, v ≤ l.foldl max a := by
  induction l with
  | nil => intro a; exact ⟨le_refl a, by simp⟩
  | cons x xs ih =>
    intro a
    simp only [List.foldl_cons]
    refine ⟨le_trans (le_max_left a x) (ih (max a x)).1, ?_⟩
    intro v hv
    rcases List.mem_cons.mp hv with h | h
    · subst h; exact le_trans (le_max_right a v) (ih (max a v)).1
    · exact (ih (max a x)).2 v h

theorem listMin_le (l : List ℚ) (v : ℚ) (hv : v ∈ l) : listMin l ≤ v := by
  cases l with
  | nil => cases hv
  | cons x xs =>
    show xs.foldl min x ≤ v
    rcases List.mem_cons.mp hv with h | h
    · subst h; exact (foldl_min_le xs v).1
    · exact (foldl_min_le xs x).2 v h

theorem le_listMax (l : List ℚ) (v : ℚ) (hv : v ∈ l) : v ≤ listMax l := by
  cases l with
  | nil => cases hv
  | cons x xs =>
    show v ≤ xs.foldl max x
    rcases List.mem_cons.mp hv with h | h
    · subst h; exact (le_foldl_max xs v).1
    · exact (le_foldl_max xs x).2 v h

theorem map_getD_range {α : Type} (r : List α) (d : α) :
    (List.range r.length).map (fun c => r.getD c d) = r := by
  induction r with
  | nil => simp
  | cons x xs ih =>
    simp only [List.length_cons, List.range_succ_eq_map, List.map_cons, List.map_map,
      Function.comp_def, List.getD_cons_zero, List.getD_cons_succ]
    exact congrArg (x :: ·) (ih)

theorem stratSplit_perm {α : Type} (labelOf : α → ℕ) (labels : List ℕ) :
    ∀ xs : List α,
      ((stratSplit labelOf labels xs).1 ++ (stratSplit labelOf labels xs).2).Perm xs := by
  induction labels with
  | nil => intro xs; simp [stratSplit]
  | cons L rest ih =>
    intro xs
    have key : ∀ (g oth : List α) (q : ℕ) (p : List α × List α),
        (p.1 ++ p.2).Perm oth → ((g.take q ++ p.1) ++ (g.drop q ++ p.2)).Perm (g ++ oth) := by
      intro g oth q p hp
      rw [← Multiset.coe_eq_coe]
      show (↑(g.take q) + ↑p.1) + (↑(g.drop q) + ↑p.2) = (↑g + ↑oth : Multiset α)
      have h1 : (↑(g.take q) : Multiset α) + ↑(g.drop q) = ↑g := by
        show ((g.take q ++ g.drop q : List α) : Multiset α) = ↑g
        rw [List.take_append_drop]
      have h2 : (↑p.1 : Multiset α) + ↑p.2 = ↑oth := by
        show ((p.1 ++ p.2 : List α) : Multiset α) = ↑oth
        exact Multiset.coe_eq_coe.mpr hp
      rw [add_add_add_comm, h1, h2]
    simp only [stratSplit]
    exact (key (xs.filter fun s => labelOf s == L) (xs.filter fun s => !(labelOf s == L))
      (testQuota (xs.filter fun s => labelOf s == L).length) _
      (ih _)).trans (List.filter_append_perm _ xs)

theorem stratSplit_mem {α : Type} (labelOf : α → ℕ) (labels : List ℕ) (xs : List α) (s : α)
    (h : s ∈ (stratSplit labelOf labels xs).1 ∨ s ∈ (stratSplit labelOf labels xs).2) :
    s ∈ xs := by
  have hp := (stratSplit_perm labelOf labels xs).mem_iff (a := s)
  rw [← hp]
  exact List.mem_append.mpr h

theorem countLabelBy_append {α : Type} (labelOf : α → ℕ) (l1 l2 : List α) (L : ℕ) :
    countLabelBy labelOf (l1 ++ l2) L =
      countLabelBy labelOf l1 L + countLabelBy labelOf l2 L :=
  List.countP_append _ _ _

theorem countLabelBy_filter_ne {α : Type} (labelOf : α → ℕ) (xs : List α) (L M : ℕ)
    (hne : L ≠ M) :
    countLabelBy labelOf (xs.filter fun s => !(labelOf s == M)) L =
      countLabelBy labelOf xs L := by
  unfold countLabelBy
  rw [List.countP_filter]
  apply List.countP_congr
  intro a _
  simp only [Bool.and_eq_true, beq_iff_eq, Bool.not_eq_true', beq_eq_false_iff_ne, ne_eq]
  constructor
  · rintro ⟨h1, _⟩; exact h1
  · intro h1; exact ⟨h1, fun h2 => hne (h1 ▸ h2 ▸ rfl)⟩

theorem countLabelBy_filter_self {α : Type} (labelOf : α → ℕ) (xs : List α) (L : ℕ) :
    (xs.filter fun s => labelOf s == L).length = countLabelBy labelOf xs L :=
  (List.countP_eq_length_filter _ _).symm

theorem stratSplit_test_countLabel {α : Type} (labelOf : α → ℕ) (labels : List ℕ) :
    labels.Nodup → ∀ L ∈ labels, ∀ xs : List α,
      countLabelBy labelOf (stratSplit labelOf labels xs).1 L =
        countLabelBy labelOf xs L / 5 := by
  induction labels with
  | nil => intro _ L hL; cases hL
  | cons M rest ih =>
    intro hnd L hL xs
    have hMr : M ∉ rest := (List.nodup_cons.mp hnd).1
    have hndr : rest.Nodup := (List.nodup_cons.mp hnd).2
    simp only [stratSplit]
    rw [countLabelBy_append]
    rcases List.mem_cons.mp hL with hLM | hLr
    · subst hLM
      have htake : countLabelBy labelOf
          ((xs.filter fun s => labelOf s == L).take
            (testQuota (xs.filter fun s => labelOf s == L).length)) L =
          testQuota (xs.filter fun s => labelOf s == L).length := by
        unfold countLabelBy
        rw [List.countP_eq_length.mpr, List.length_take]
        · exact Nat.min_eq_left (Nat.div_le_self _ _)
        · intro a ha
          exact (List.mem_filter.mp (List.take_subset _ _ ha)).2
      have hte : countLabelBy labelOf
          (stratSplit labelOf rest (xs.filter fun s => !(labelOf s == L))).1 L = 0 := by
        unfold countLabelBy
        rw [List.countP_eq_zero]
        intro a ha
        have hao := stratSplit_mem labelOf rest _ a (Or.inl ha)
        have := (List.mem_filter.mp hao).2
        simpa using this
      rw [htake, hte, Nat.add_zero]
      unfold testQuota
      rw [countLabelBy_filter_self]
    · have hLM : L ≠ M := fun h => hMr (h ▸ hLr)
      have htake : countLabelBy labelOf
          ((xs.filter fun s => labelOf s == M).take
            (testQuota (xs.filter fun s => labelOf s == M).length)) L = 0 := by
        unfold countLabelBy
        rw [List.countP_eq_zero]
        intro a ha
        have hag := (List.mem_filter.mp (List.take_subset _ _ ha)).2
        simp only [beq_iff_eq] at hag ⊢
        simp only [hag]
        exact fun h => hLM h.symm
      rw [htake, Nat.zero_add, ih hndr L hLr, countLabelBy_filter_ne labelOf xs L M hLM]

theorem stratSplit_test_length {α : Type} (labelOf : α → ℕ) (labels : List ℕ) :
    labels.Nodup → ∀ xs : List α,
      (stratSplit labelOf labels xs).1.length =
        (labels.map fun L => countLabelBy labelOf xs L / 5).sum := by
  induction labels with
  | nil => intro _ xs; simp [stratSplit]
  | cons M rest ih =>
    intro hnd xs
    have hMr : M ∉ rest := (List.nodup_cons.mp hnd).1
    have hndr : rest.Nodup := (List.nodup_cons.mp hnd).2
    simp only [stratSplit, List.length_append, List.map_cons, List.sum_cons]
    have hmin : ∀ n : ℕ, min (testQuota n) n = testQuota n :=
      fun n => Nat.min_eq_left (Nat.div_le_self n 5)
    rw [List.length_take, hmin, ih hndr]
    unfold testQuota
    rw [countLabelBy_filter_self]
    have hmap : (rest.map fun L =>
        countLabelBy labelOf (xs.filter fun s => !(labelOf s == M)) L / 5) =
        rest.map fun L => countLabelBy labelOf xs L / 5 := by
      apply List.map_congr_left
      intro L hLr
      rw [countLabelBy_filter_ne labelOf xs L M (fun h => hMr (h ▸ hLr))]
    rw [hmap]

theorem sum_countLabelBy {α : Type} (labelOf : α → ℕ) (labels : List ℕ) :
    labels.Nodup → ∀ xs : List α, (∀ s ∈ xs, labelOf s ∈ labels) →
      (labels.map fun L => countLabelBy labelOf xs L).sum = xs.length := by
  induction labels with
  | nil =>
    intro _ xs hcov
    have : xs = [] := List.eq_nil_iff_forall_not_mem.mpr fun a ha => by simpa using hcov a ha
    subst this; simp
  | cons M rest ih =>
    intro hnd xs hcov
    have hMr : M ∉ rest := (List.nodup_cons.mp hnd).1
    have hndr : rest.Nodup := (List.nodup_cons.mp hnd).2
    simp only [List.map_cons, List.sum_cons]
    have hmap : (rest.map fun L => countLabelBy labelOf xs L) =
        rest.map fun L => countLabelBy labelOf (xs.filter fun s => !(labelOf s == M)) L := by
      apply List.map_congr_left
      intro L hLr
      rw [countLabelBy_filter_ne labelOf xs L M (fun h => hMr (h ▸ hLr))]
    rw [hmap, ih hndr _ ?cov]
    case cov =>
      intro s hs
      have hsm := List.mem_filter.mp hs
      have := hcov s hsm.1
      rcases List.mem_cons.mp this with h | h
      · exfalso; have := hsm.2; simp [h] at this
      · exact h
    rw [← countLabelBy_filter_self labelOf xs M]
    exact (List.length_eq_length_filter_add _).symm

theorem scaleVal_bounds (mn mx v : ℚ) (h1 : mn ≤ v) (h2 : v ≤ mx) :
    0 ≤ scaleVal mn mx v ∧ scaleVal mn mx v ≤ 1 := by
  unfold scaleVal
  by_cases h : mx = mn
  · simp [h]
  · simp only [if_neg h]
    have hlt : mn < mx := lt_of_le_of_ne (le_trans h1 h2) (Ne.symm h)
    have hpos : 0 < mx - mn := by linarith
    constructor
    · exact div_nonneg (by linarith) (le_of_lt hpos)
    · rw [div_le_one hpos]; linarith

theorem scaleRow_length (fitRows : List (List ℚ)) (r : List ℚ) :
    (scaleRow fitRows r).length = r.length := by
  simp [scaleRow]

/-- C2, as stated, fails on the code: in Step 4 the scaler is fitted on the
full dataset before the split, so a test-designated row can change the
Scaling Parameters.  On `exLeak` the split designates the first sample
(feature 100) as test data; the parameters the pipeline uses are
(min, max) = (0, 100), while parameters fitted only on the
training-designated rows would be (0, 1). -/
theorem C2_counterexample :
    scalingParamsUsed exLeak 0 = (0, 100) ∧
    scalingParamsClaim exLeak 0 = (0, 1) ∧
    scalingParamsUsed exLeak 0 ≠ scalingParamsClaim exLeak 0 := by
  decide

/-- C2 (amended): the per-feature-column (min, max) Scaling Parameters are
computed once from the entire Dataset — the rows later designated as test
data included, so those rows do contribute to the parameters — and every
sample of both the Train and the Test part is scored with those same
full-dataset parameters, applied uniformly. -/
theorem C2_params_from_full_dataset (xs : List Sample) (s : Sample)
    (hs : s ∈ (preprocess xs).1 ∨ s ∈ (preprocess xs).2) :
    ∃ s0 ∈ xs, s = ⟨scaleRow (featureRows xs) s0.features, s0.label⟩ := by
  have hs' : s ∈ (stratSplit Sample.label digitLabels (scaledDataset xs)).1 ∨
      s ∈ (stratSplit Sample.label digitLabels (scaledDataset xs)).2 := hs
  have hmem : s ∈ scaledDataset xs := stratSplit_mem _ _ _ _ hs'
  rcases List.mem_map.mp hmem with ⟨s0, hs0, heq⟩
  exact ⟨s0, hs0, heq.symm⟩

/-- C2 witness: on `exConst` the train part's sample (0, label 0) is a raw
sample of the dataset scaled with the full-dataset parameters. -/
theorem C2_witness :
    (Sample.mk [0] 0 ∈ (preprocess exConst).1 ∨ Sample.mk [0] 0 ∈ (preprocess exConst).2) ∧
    ∃ s0 ∈ exConst, Sample.mk [0] 0 = ⟨scaleRow (featureRows exConst) s0.features, s0.label⟩ :=
  ⟨by decide, C2_params_from_full_dataset exConst (Sample.mk [0] 0) (by decide)⟩

/-- C3: after the Preprocessor's scaling step, every feature value of every
sample lies in [0, 1]; and for every column whose fitted maximum equals its
fitted minimum (a zero-range column), the scaled value is exactly 0 for
every row. -/
theorem C3_scaled_bounds (xs : List Sample) :
    (∀ s ∈ scaledDataset xs, ∀ v ∈ s.features, 0 ≤ v ∧ v ≤ 1) ∧
    (∀ c, (scalingParamsUsed xs c).2 = (scalingParamsUsed xs c).1 →
      ∀ s ∈ scaledDataset xs, s.features.getD c 0 = 0) := by
  constructor
  · intro s hs v hv
    rcases List.mem_map.mp hs with ⟨s0, hs0, heq⟩
    rw [← heq] at hv
    simp only [scaleRow] at hv
    rcases List.mem_map.mp hv with ⟨c, _, hveq⟩
    have hvin : s0.features.getD c 0 ∈ colVals (featureRows xs) c :=
      List.mem_map.mpr ⟨s0.features, List.mem_map.mpr ⟨s0, hs0, rfl⟩, rfl⟩
    have hmn : (fitParams (featureRows xs) c).1 ≤ s0.features.getD c 0 :=
      listMin_le _ _ hvin
    have hmx : s0.features.getD c 0 ≤ (fitParams (featureRows xs) c).2 :=
      le_listMax _ _ hvin
    rw [← hveq]
    exact scaleVal_bounds _ _ _ hmn hmx
  · intro c hzero s hs
    rcases List.mem_map.mp hs with ⟨s0, _, heq⟩
    rw [← heq]
    show (scaleRow (featureRows xs) s0.features).getD c 0 = 0
    by_cases hc : c < s0.features.length
    · have hlen : c < (scaleRow (featureRows xs) s0.features).length := by
        rw [scaleRow_length]; exact hc
      rw [List.getD_eq_getElem _ 0 hlen]
      simp only [scaleRow, List.getElem_map, List.getElem_range]
      unfold scaleVal
      have hz : (fitParams (featureRows xs) c).2 = (fitParams (featureRows xs) c).1 := hzero
      rw [if_pos hz]
    · have hlen : (scaleRow (featureRows xs) s0.features).length ≤ c := by
        rw [scaleRow_length]; omega
      exact List.getD_eq_default _ 0 hlen

/-- C3 witness: on `exConst` (a constant, hence zero-range, feature column)
the scaled sample (0, label 0) is in the scaled dataset, its feature value 0
lies in [0, 1], and the zero-range column 0 scales to exactly 0. -/
theorem C3_witness :
    (Sample.mk [0] 0 ∈ scaledDataset exConst) ∧
    (0 ≤ (0 : ℚ) ∧ (0 : ℚ) ≤ 1) ∧
    ((Sample.mk ([0] : List ℚ) 0).features.getD 0 0 = 0) :=
  ⟨by decide,
   (C3_scaled_bounds exConst).1 (Sample.mk [0] 0) (by decide) 0 (by decide),
   (C3_scaled_bounds exConst).2 0 (by decide) (Sample.mk [0] 0) (by decide)⟩

/-- C4: the Split produced by the Preprocessor is a partition of the
(scaled) Dataset — Test and Train are disjoint and their concatenation is a
permutation of the whole scaled Dataset (equivalently, per-sample
multiplicities add up) — Test holds 20% of the samples and Train holds 80%,
and for every label the proportion of that label's samples in Train and in
Test equals its proportion in the full Dataset exactly (within any
tolerance); the exact percentages are stated under the divisibility
hypothesis that makes "20%" a whole number of samples per class. -/
theorem C4_split_partition (xs : List Sample)
    (hcov : ∀ s ∈ xs, s.label < 10)
    (hdiv : ∀ L < 10, 5 ∣ countLabel xs L) :
    (((preprocess xs).1 ++ (preprocess xs).2).Perm (scaledDataset xs)) ∧
    (∀ s : Sample, (preprocess xs).1.count s + (preprocess xs).2.count s =
      (scaledDataset xs).count s) ∧
    5 * (preprocess xs).1.length = xs.length ∧
    5 * (preprocess xs).2.length = 4 * xs.length ∧
    (∀ L < 10, countLabel ((preprocess xs).1) L * xs.length =
      countLabel xs L * (preprocess xs).1.length) ∧
    (∀ L < 10, countLabel ((preprocess xs).2) L * xs.length =
      countLabel xs L * (preprocess xs).2.length) := by
  have hnd : digitLabels.Nodup := List.nodup_range 10
  have hys_len : (scaledDataset xs).length = xs.length := List.length_map _ _
  have hcount : ∀ L, countLabel (scaledDataset xs) L = countLabel xs L := by
    intro L
    unfold countLabel countLabelBy scaledDataset
    rw [List.countP_map]
    rfl
  have hperm : ((preprocess xs).1 ++ (preprocess xs).2).Perm (scaledDataset xs) :=
    stratSplit_perm Sample.label digitLabels (scaledDataset xs)
  have hlen_sum : (preprocess xs).1.length + (preprocess xs).2.length = xs.length := by
    have h := hperm.length_eq
    rw [List.length_append] at h
    rw [h, hys_len]
  have htestlen : (preprocess xs).1.length =
      (digitLabels.map fun L => countLabel xs L / 5).sum := by
    have h : (preprocess xs).1.length =
        (digitLabels.map fun L => countLabelBy Sample.label (scaledDataset xs) L / 5).sum :=
      stratSplit_test_length Sample.label digitLabels hnd (scaledDataset xs)
    have hm : (digitLabels.map fun L => countLabelBy Sample.label (scaledDataset xs) L / 5) =
        digitLabels.map fun L => countLabel xs L / 5 := by
      apply List.map_congr_left
      intro L _
      rw [show countLabelBy Sample.label (scaledDataset xs) L =
        countLabel (scaledDataset xs) L from rfl, hcount]
    rw [h, hm]
  have h5T : 5 * (preprocess xs).1.length = xs.length := by
    rw [htestlen, ← List.sum_map_mul_left]
    have hcancel : (digitLabels.map fun L => 5 * (countLabel xs L / 5)) =
        digitLabels.map fun L => countLabel xs L := by
      apply List.map_congr_left
      intro L hL
      exact Nat.mul_div_cancel' (hdiv L (List.mem_range.mp hL))
    rw [hcancel]
    exact sum_countLabelBy Sample.label digitLabels hnd xs
      (fun s hs => List.mem_range.mpr (hcov s hs))
  have h5Tr : 5 * (preprocess xs).2.length = 4 * xs.length := by omega
  have htest_count : ∀ L, L < 10 →
      countLabel ((preprocess xs).1) L = countLabel xs L / 5 := by
    intro L hL
    have h : countLabel ((preprocess xs).1) L = countLabel (scaledDataset xs) L / 5 :=
      stratSplit_test_countLabel Sample.label digitLabels hnd L
        (List.mem_range.mpr hL) (scaledDataset xs)
    rw [hcount] at h
    exact h
  have hpair_count : ∀ L, countLabel ((preprocess xs).1) L + countLabel ((preprocess xs).2) L =
      countLabel xs L := by
    intro L
    have h := hperm.countP_eq (fun s => s.label == L)
    rw [List.countP_append] at h
    exact h.trans (hcount L)
  refine ⟨hperm, ?_, h5T, h5Tr, ?_, ?_⟩
  · intro s
    rw [← List.count_append]
    exact hperm.count_eq s
  · intro L hL
    rcases hdiv L hL with ⟨a, ha⟩
    rw [htest_count L hL, ha, Nat.mul_div_cancel_left a (by norm_num)]
    calc a * xs.length = a * (5 * (preprocess xs).1.length) := by rw [h5T]
      _ = 5 * a * (preprocess xs).1.length := by ring
  · intro L hL
    rcases hdiv L hL with ⟨a, ha⟩
    have htr : countLabel ((preprocess xs).2) L = 4 * a := by
      have hp := hpair_count L
      rw [htest_count L hL, ha, Nat.mul_div_cancel_left a (by norm_num)] at hp
      omega
    rw [htr, ha]
    apply Nat.eq_of_mul_eq_mul_left (show 0 < 5 by norm_num)
    calc 5 * (4 * a * xs.length) = 5 * a * (4 * xs.length) := by ring
      _ = 5 * a * (5 * (preprocess xs).2.length) := by rw [h5Tr]
      _ = 5 * (5 * a * (preprocess xs).2.length) := by ring

/-- C4 witness: on `exStrat` (ten samples, five per label) the split is a
partition with Test exactly 20% (2 samples) and Train exactly 80%
(8 samples), stratified exactly. -/
theorem C4_witness :
    ((∀ s ∈ exStrat, s.label < 10) ∧ (∀ L < 10, 5 ∣ countLabel exStrat L)) ∧
    ((((preprocess exStrat).1 ++ (preprocess exStrat).2).Perm (scaledDataset exStrat)) ∧
    (∀ s : Sample, (preprocess exStrat).1.count s + (preprocess exStrat).2.count s =
      (scaledDataset exStrat).count s) ∧
    5 * (preprocess exStrat).1.length = exStrat.length ∧
    5 * (preprocess exStrat).2.length = 4 * exStrat.length ∧
    (∀ L < 10, countLabel ((preprocess exStrat).1) L * exStrat.length =
      countLabel exStrat L * (preprocess exStrat).1.length) ∧
    (∀ L < 10, countLabel ((preprocess exStrat).2) L * exStrat.length =
      countLabel exStrat L * (preprocess exStrat).2.length)) :=
  ⟨⟨by decide, by decide⟩, C4_split_partition exStrat (by decide) (by decide)⟩

theorem bestAux_le (score : SVCParams → ℚ) :
    ∀ (ps : List SVCParams) (b : SVCParams), score b ≤ score (bestAux score b ps) := by
  intro ps
  induction ps with
  | nil => intro b; exact le_refl _
  | cons p ps ih =>
    intro b
    show score b ≤ score (bestAux score (if score b < score p then p else b) ps)
    by_cases h : score b < score p
    · rw [if_pos h]; exact le_of_lt (lt_of_lt_of_le h (ih p))
    · rw [if_neg h]; exact ih b

theorem bestAux_spec (score : SVCParams → ℚ) :
    ∀ (ps : List SVCParams) (b : SVCParams),
      ∃ l1 l2, b :: ps = l1 ++ bestAux score b ps :: l2 ∧
        (∀ p ∈ l1, score p < score (bestAux score b ps)) ∧
        (∀ p ∈ l2, score p ≤ score (bestAux score b ps)) := by
  intro ps
  induction ps with
  | nil => intro b; exact ⟨[], [], rfl, by simp, by simp⟩
  | cons p ps ih =>
    intro b
    by_cases h : score b < score p
    · have hred : bestAux score b (p :: ps) = bestAux score p ps := by
        simp only [bestAux, if_pos h]
      rcases ih p with ⟨l1, l2, hdec, h1, h2⟩
      refine ⟨b :: l1, l2, ?_, ?_, ?_⟩
      · rw [hred, List.cons_append, ← hdec]
      · intro q hq
        rcases List.mem_cons.mp hq with rfl | hq'
        · rw [hred]; exact lt_of_lt_of_le h (bestAux_le score ps p)
        · rw [hred]; exact h1 q hq'
      · intro q hq; rw [hred]; exact h2 q hq
    · have hred : bestAux score b (p :: ps) = bestAux score b ps := by
        simp only [bestAux, if_neg h]
      rcases ih b with ⟨l1, l2, hdec, h1, h2⟩
      cases l1 with
      | nil =>
        simp only [List.nil_append] at hdec
        obtain ⟨hb, hl⟩ := List.cons.inj hdec
        refine ⟨[], p :: l2, ?_, by simp, ?_⟩
        · rw [hred, List.nil_append, ← hb, ← hl]
        · intro q hq
          rcases List.mem_cons.mp hq with rfl | hq'
          · rw [hred, ← hb]; exact le_of_not_lt h
          · rw [hred]; exact h2 q hq'
      | cons a l1' =>
        rw [List.cons_append] at hdec
        obtain ⟨hb, hl⟩ := List.cons.inj hdec
        have hbr : score b < score (bestAux score b ps) := by
          have := h1 a (List.mem_cons_self a l1')
          rw [← hb] at this
          exact this
        refine ⟨b :: p :: l1', l2, ?_, ?_, ?_⟩
        · rw [hred]
          show b :: p :: ps = b :: p :: (l1' ++ bestAux score b ps :: l2)
          conv_lhs => rw [hl]
        · intro q hq
          rcases List.mem_cons.mp hq with rfl | hq'
          · rw [hred]; exact hbr
          rcases List.mem_cons.mp hq' with rfl | hq''
          · rw [hred]; exact lt_of_le_of_lt (le_of_not_lt h) hbr
          · rw [hred]; exact h1 q (List.mem_cons_of_mem a hq'')
        · intro q hq; rw [hred]; exact h2 q hq

theorem argmaxFirst_spec (score : SVCParams → ℚ) (l : List SVCParams) (hl : l ≠ []) :
    ∃ w, argmaxFirst score l = some w ∧ (∀ p ∈ l, score p ≤ score w) ∧
      ∃ l1 l2, l = l1 ++ w :: l2 ∧ ∀ p ∈ l1, score p < score w := by
  cases l with
  | nil => exact absurd rfl hl
  | cons b ps =>
    rcases bestAux_spec score ps b with ⟨l1, l2, hdec, h1, h2⟩
    refine ⟨bestAux score b ps, rfl, ?_, l1, l2, hdec, h1⟩
    intro p hp
    rw [hdec] at hp
    rcases List.mem_append.mp hp with hp1 | hp2
    · exact le_of_lt (h1 p hp1)
    · rcases List.mem_cons.mp hp2 with rfl | hp3
      · exact le_refl _
      · exact h2 p hp3

/-- C5: the Hyperparameter Search always terminates (the selection below is
a total function of the finite grid) and returns exactly one winning
combination `w`; `w`'s mean 3-fold cross-validated score is greater than or
equal to the mean score of every combination of the grid; every combination
enumerated before `w` scores strictly below it, so on ties the first
combination in enumeration order wins; and `w`'s regularization strength is
one of \x7b0.1, 1, 10\x7d. -/
theorem C5_grid_search (foldScore : SVCParams → Fin 3 → ℚ) :
    ∃ w : SVCParams,
      gridSearchBest (meanCvScore foldScore) = some w ∧
      (∀ p ∈ paramGrid, meanCvScore foldScore p ≤ meanCvScore foldScore w) ∧
      (∃ l1 l2, paramGrid = l1 ++ w :: l2 ∧
        ∀ p ∈ l1, meanCvScore foldScore p < meanCvScore foldScore w) ∧
      w.C ∈ cValues := by
  rcases argmaxFirst_spec (meanCvScore foldScore) paramGrid (by decide) with
    ⟨w, hw, hmax, l1, l2, hdec, hfirst⟩
  refine ⟨w, hw, hmax, ⟨l1, l2, hdec, hfirst⟩, ?_⟩
  have hin : w ∈ paramGrid := by
    rw [hdec]; exact List.mem_append.mpr (Or.inr (List.mem_cons_self _ _))
  unfold paramGrid at hin
  rcases List.mem_flatMap.mp hin with ⟨c, hc, hp2⟩
  rcases List.mem_flatMap.mp hp2 with ⟨g, _, hp3⟩
  rcases List.mem_map.mp hp3 with ⟨k, _, hk⟩
  rw [← hk]
  exact hc

theorem confusionMatrix_row_sum (pairs : List (ℕ × ℕ)) (i : ℕ)
    (hpred : ∀ p ∈ pairs, p.2 < 10) :
    (∑ j ∈ Finset.range 10, confusionMatrix pairs i j) =
      pairs.countP fun p => p.1 == i := by
  induction pairs with
  | nil => simp [confusionMatrix]
  | cons a l ih =>
    have hl : ∀ p ∈ l, p.2 < 10 := fun p hp => hpred p (List.mem_cons_of_mem a hp)
    have ha : a.2 < 10 := hpred a (List.mem_cons_self a l)
    have hcons : ∀ j, confusionMatrix (a :: l) i j =
        confusionMatrix l i j + if (a.1 == i && a.2 == j) = true then 1 else 0 :=
      fun j => List.countP_cons _ a l
    rw [List.countP_cons]
    calc ∑ j ∈ Finset.range 10, confusionMatrix (a :: l) i j
        = ∑ j ∈ Finset.range 10, (confusionMatrix l i j +
            if (a.1 == i && a.2 == j) = true then 1 else 0) :=
          Finset.sum_congr rfl fun j _ => hcons j
      _ = (∑ j ∈ Finset.range 10, confusionMatrix l i j) +
            ∑ j ∈ Finset.range 10, (if (a.1 == i && a.2 == j) = true then 1 else 0) :=
          Finset.sum_add_distrib
      _ = l.countP (fun p => p.1 == i) + if (a.1 == i) = true then 1 else 0 := by
          rw [ih hl]
          congr 1
          by_cases hi : a.1 = i
          · simp [hi, beq_iff_eq, Finset.sum_ite_eq, Finset.mem_range, ha]
          · simp [hi, beq_iff_eq]

theorem countP_fst_sum (pairs : List (ℕ × ℕ)) (htrue : ∀ p ∈ pairs, p.1 < 10) :
    (∑ i ∈ Finset.range 10, pairs.countP fun p => p.1 == i) = pairs.length := by
  induction pairs with
  | nil => simp
  | cons a l ih =>
    have hl : ∀ p ∈ l, p.1 < 10 := fun p hp => htrue p (List.mem_cons_of_mem a hp)
    have ha : a.1 < 10 := htrue a (List.mem_cons_self a l)
    simp only [List.countP_cons, List.length_cons]
    rw [Finset.sum_add_distrib, ih hl]
    congr 1
    simp [beq_iff_eq, Finset.sum_ite_eq, Finset.mem_range, ha]

/-- C6: for the 10x10 confusion matrix (entry (i, j) counting test samples
with true label i predicted as label j), the sum of all entries equals the
Test subset size, and for every label i the sum of row i equals the number
of Test samples whose true label is i. -/
theorem C6_confusion_matrix (predict : List ℚ → ℕ) (test : List Sample)
    (htrue : ∀ s ∈ test, s.label < 10)
    (hpred : ∀ s ∈ test, predict s.features < 10) :
    (∑ i ∈ Finset.range 10, ∑ j ∈ Finset.range 10,
      confusionMatrix (predPairs predict test) i j) = test.length ∧
    ∀ i < 10, (∑ j ∈ Finset.range 10, confusionMatrix (predPairs predict test) i j) =
      countLabel test i := by
  have hptrue : ∀ p ∈ predPairs predict test, p.1 < 10 := by
    intro p hp
    rcases List.mem_map.mp hp with ⟨s, hs, heq⟩
    rw [← heq]
    exact htrue s hs
  have hppred : ∀ p ∈ predPairs predict test, p.2 < 10 := by
    intro p hp
    rcases List.mem_map.mp hp with ⟨s, hs, heq⟩
    rw [← heq]
    exact hpred s hs
  constructor
  · rw [Finset.sum_congr rfl fun i _ => confusionMatrix_row_sum _ i hppred,
      countP_fst_sum _ hptrue]
    exact List.length_map _ _
  · intro i _
    rw [confusionMatrix_row_sum _ i hppred]
    unfold predPairs countLabel countLabelBy
    rw [List.countP_map]
    rfl

/-- C6 witness: on the ten-sample `exStrat` with the constant predictor 0,
the hypotheses hold and the confusion-matrix sums follow. -/
theorem C6_witness :
    ((∀ s ∈ exStrat, s.label < 10) ∧ (∀ s ∈ exStrat, (fun _ => 0 : List ℚ → ℕ) s.features < 10)) ∧
    ((∑ i ∈ Finset.range 10, ∑ j ∈ Finset.range 10,
      confusionMatrix (predPairs (fun _ => 0) exStrat) i j) = exStrat.length ∧
    ∀ i < 10, (∑ j ∈ Finset.range 10, confusionMatrix (predPairs (fun _ => 0) exStrat) i j) =
      countLabel exStrat i) :=
  ⟨⟨by decide, by decide⟩, C6_confusion_matrix (fun _ => 0) exStrat (by decide) (by decide)⟩

/-- C7: running the Step-5 Trainer/Evaluator twice with the same Train/Test
split (the same opaque `fitEval`) under different ambient global random
states produces identical outputs — in particular bit-identical accuracy
values and confusion matrices for each of the three variants — because every
variant of the source's `models` dict either passes the fixed seed
`random_state=42` or consumes no randomness at all. -/
theorem C7_determinism (fitEval : ModelConfig → ℕ → EvalResult) (g1 g2 : ℕ) :
    runModels fitEval g1 = runModels fitEval g2 ∧
    ((runModels fitEval g1).map fun r => (r.1, r.2.accuracy)) =
      ((runModels fitEval g2).map fun r => (r.1, r.2.accuracy)) ∧
    ((runModels fitEval g1).map fun r => (r.1, r.2.confusion)) =
      ((runModels fitEval g2).map fun r => (r.1, r.2.confusion)) :=
  ⟨rfl, rfl, rfl⟩

/-- C8, as stated, fails on the code: with a fit outcome where the KNN
variant raises a `FitError` and the other variants would fit fine, the
Step-5 loop — which has no per-model exception handling — propagates the
error: no result list is produced at all, so the Random Forest variant
(after KNN in the dict) is not trained or evaluated. -/
theorem C8_counterexample :
    trainLoop exFit models = Except.error FitError.singularInput ∧
    ∀ l : List (ModelName × Unit), trainLoop exFit models ≠ Except.ok l := by
  constructor
  · rfl
  · intro l h
    rw [show trainLoop exFit models = Except.error FitError.singularInput from rfl] at h
    exact Except.noConfusion h

/-- C8 (amended): if fitting one model variant fails, the error propagates
out of the Step-5 loop and aborts it — the variants after the failing one
are not trained or evaluated, and the loop's outcome is the failing
variant's error rather than a result list. -/
theorem C8_fit_error_aborts {α : Type} (fit : ModelName → Except FitError α)
    (pre post : List ModelConfig) (cfg : ModelConfig) (e : FitError)
    (hpre : ∀ c ∈ pre, ∃ a, fit c.name = Except.ok a)
    (hfail : fit cfg.name = Except.error e) :
    trainLoop fit (pre ++ cfg :: post) = Except.error e := by
  induction pre with
  | nil => simp [trainLoop, hfail]
  | cons c pre ih =>
    rcases hpre c (List.mem_cons_self c pre) with ⟨a, ha⟩
    have hpre' : ∀ c' ∈ pre, ∃ b, fit c'.name = Except.ok b :=
      fun c' hc' => hpre c' (List.mem_cons_of_mem c hc')
    simp [trainLoop, ha, ih hpre']

/-- C8 witness: the `models` dict split around its failing KNN entry —
the SVM before it fits fine, the loop's outcome is KNN's error. -/
theorem C8_witness :
    (∀ c ∈ [(⟨ModelName.svm, true, some 42⟩ : ModelConfig)],
      ∃ a, exFit c.name = Except.ok a) ∧
    exFit ModelName.knn = Except.error FitError.singularInput ∧
    trainLoop exFit ([⟨ModelName.svm, true, some 42⟩] ++
      (⟨ModelName.knn, false, none⟩ : ModelConfig) ::
      [⟨ModelName.randomForest, true, some 42⟩]) = Except.error FitError.singularInput := by
  refine ⟨?_, rfl, ?_⟩
  · intro c hc
    rcases List.mem_singleton.mp hc with rfl
    exact ⟨(), rfl⟩
  · exact C8_fit_error_aborts exFit [⟨ModelName.svm, true, some 42⟩]
      [⟨ModelName.randomForest, true, some 42⟩] ⟨ModelName.knn, false, none⟩
      FitError.singularInput
      (by intro c hc; rcases List.mem_singleton.mp hc with rfl; exact ⟨(), rfl⟩) rfl

theorem numMissing_scaleRawRow (fitRows : List (List (Option ℚ))) (r : List (Option ℚ)) :
    numMissing (scaleRawRow fitRows r) = numMissing r := by
  unfold numMissing scaleRawRow
  rw [List.countP_map]
  conv_rhs => rw [← map_getD_range r none]
  rw [List.countP_map]
  apply List.countP_congr
  intro c _
  cases h : r.getD c none <;> simp [Function.comp, h]

/-- C9, as stated, fails on the code: on a dataset with a missing feature
the Preprocessor does not raise — it produces a scaled output and split in
which the missing entry is simply passed through (the notebook's only
missing-value handling is the printed count of Step 3, and the scaler
disregards missing entries when fitting and maintains them). -/
theorem C9_counterexample :
    preprocessChecked exMissing = Except.ok (preprocessRaw exMissing) ∧
    (RawSample.mk [none, some 0] 0) ∈ (preprocessRaw exMissing).2 ∧
    numMissing (RawSample.mk [none, some 0] 0).features = 1 := by
  refine ⟨rfl, ?_, by decide⟩
  decide

/-- C9 (amended): the Preprocessor performs no missing-value check — for
every input, incomplete or not, it produces the scaled output and the full
split (never a `DataError`), and each row's missing entries are passed
through the scaling unimputed (their number is preserved exactly). -/
theorem C9_no_missing_value_check (xs : List RawSample) :
    preprocessChecked xs = Except.ok (preprocessRaw xs) ∧
    (((preprocessRaw xs).1 ++ (preprocessRaw xs).2).Perm
      (xs.map fun s => ⟨scaleRawRow (xs.map RawSample.features) s.features, s.label⟩)) ∧
    ∀ s ∈ xs, numMissing (scaleRawRow (xs.map RawSample.features) s.features) =
      numMissing s.features := by
  refine ⟨rfl, stratSplit_perm _ _ _, ?_⟩
  intro s _
  exact numMissing_scaleRawRow _ _

/-- C9 witness: on `exMissing` the incomplete second sample is in the
dataset and its single missing entry survives scaling unimputed. -/
theorem C9_witness :
    (RawSample.mk [none, some 2] 0 ∈ exMissing) ∧
    numMissing (scaleRawRow (exMissing.map RawSample.features)
      (RawSample.mk [none, some 2] 0).features) =
      numMissing (RawSample.mk [none, some 2] 0).features :=
  ⟨by decide,
   (C9_no_missing_value_check exMissing).2.2 (RawSample.mk [none, some 2] 0) (by decide)⟩

/-- C10: Step 8's grid search operates on fresh clones of a
default-configured `SVC()` — every estimator it fits keeps the default
`random_state=None` and differs from the Step-5 SVM configuration — and
running Step 8 leaves the Step-5 fitted models and their recorded accuracy
results unchanged, recording only the search outcome. -/
theorem C10_frame (μ : Type) (score : SVCParams → ℚ) (st : NotebookState μ) :
    (step8 score st).fittedModels = st.fittedModels ∧
    (step8 score st).results = st.results ∧
    (step8 score st).bestFound = gridSearchBest score ∧
    ∀ e ∈ gridEstimators, e.randomState = defaultSVC.randomState ∧ e ≠ step5SVC := by
  refine ⟨rfl, rfl, rfl, ?_⟩
  intro e he
  rcases List.mem_map.mp he with ⟨p, _, heq⟩
  constructor
  · rw [← heq]; rfl
  · intro h
    rw [← heq] at h
    have := congrArg SVCConfig.randomState h
    simp [gridEstimator, defaultSVC, step5SVC] at this

/-- C10 witness: the frame equalities at a concrete state. -/
theorem C10_witness :
    (step8 (fun _ => 0) (NotebookState.mk ([] : List (ModelName × Unit)) [] none)).fittedModels =
      (NotebookState.mk ([] : List (ModelName × Unit)) [] none).fittedModels ∧
    (step8 (fun _ => 0) (NotebookState.mk ([] : List (ModelName × Unit)) [] none)).results =
      (NotebookState.mk ([] : List (ModelName × Unit)) [] none).results ∧
    (step8 (fun _ => 0) (NotebookState.mk ([] : List (ModelName × Unit)) [] none)).bestFound =
      gridSearchBest (fun _ => 0) ∧
    ∀ e ∈ gridEstimators, e.randomState = defaultSVC.randomState ∧ e ≠ step5SVC :=
  C10_frame Unit (fun _ => 0) (NotebookState.mk [] [] none)

end DigitRecognition
